import Mathlib

/-!
Verification of the Monday-range breakout analysis of the Statistical-edge
repository.  The embedding below follows `src/analyze_monday_ranges.py` and
`src/monday_partial_breaks.py`: a data frame is a list of candle rows carrying
the columns used by the analysis (`Date`, `Open`, `High`, `Low`, `Close`,
`DayOfWeek`, `Week`, `Year`); `df.groupby(['Week', 'Year'])` iterates the
distinct `(Week, Year)` keys in ascending lexicographic order, each group
keeping the original row order; prices are modelled by exact rationals.
-/

/-- One row of the prepared data frame: the CSV columns `Date, Open, High,
Low, Close` plus the derived columns `DayOfWeek` (Monday = 0 .. Sunday = 6),
`Week` and `Year` (ISO calendar) added by `load_data`.  Dates are modelled as
ordinal day numbers. -/
structure Candle where
  date : ℕ
  open_ : ℚ
  high : ℚ
  low : ℚ
  close : ℚ
  dayOfWeek : ℕ
  week : ℕ
  year : ℕ
deriving DecidableEq

/-- The groupby key of a row: the `(Week, Year)` tuple, in the order
`df.groupby(['Week', 'Year'])` lists the columns. -/
def candleKey (c : Candle) : ℕ × ℕ := (c.week, c.year)

/-- Ascending lexicographic order on `(Week, Year)` tuples: the order in which
pandas `groupby(['Week', 'Year'])` (with its default `sort=True`) iterates the
group keys. -/
def keyLE (a b : ℕ × ℕ) : Prop := a.1 < b.1 ∨ (a.1 = b.1 ∧ a.2 ≤ b.2)

instance : DecidableRel keyLE := fun a b => by
  unfold keyLE; exact inferInstance

instance : IsTotal (ℕ × ℕ) keyLE where
  total a b := by
    obtain ⟨a1, a2⟩ := a; obtain ⟨b1, b2⟩ := b
    simp only [keyLE]; omega

instance : IsTrans (ℕ × ℕ) keyLE where
  trans a b c hab hbc := by
    obtain ⟨a1, a2⟩ := a; obtain ⟨b1, b2⟩ := b; obtain ⟨c1, c2⟩ := c
    simp only [keyLE] at *; omega

instance : IsAntisymm (ℕ × ℕ) keyLE where
  antisymm a b hab hba := by
    obtain ⟨a1, a2⟩ := a; obtain ⟨b1, b2⟩ := b
    simp only [keyLE, Prod.mk.injEq] at *; omega

/-- The distinct `(Week, Year)` keys of the frame in the ascending order in
which `df.groupby(['Week', 'Year'])` iterates them. -/
def sortedKeys (df : List Candle) : List (ℕ × ℕ) :=
  List.insertionSort keyLE (df.map candleKey).dedup

/-- The rows of the frame belonging to one groupby key, in original row
order (pandas groups preserve the order of the underlying frame). -/
def weekGroup (df : List Candle) (k : ℕ × ℕ) : List Candle :=
  df.filter (fun c => decide (candleKey c = k))

/-- The `(key, group)` pairs produced by `df.groupby(['Week', 'Year'])`. -/
def weekGroups (df : List Candle) : List ((ℕ × ℕ) × List Candle) :=
  (sortedKeys df).map (fun k => (k, weekGroup df k))

/-- `week_data[week_data['DayOfWeek'] == 0]`: the Monday rows of a group. -/
def mondayRows (g : List Candle) : List Candle :=
  g.filter (fun c => c.dayOfWeek == 0)

/-- `week_data[week_data['DayOfWeek'].isin([1,2,3,4])]`: the Tuesday-Friday
rows of a group, in row order. -/
def restOfWeek (g : List Candle) : List Candle :=
  g.filter (fun c => decide (c.dayOfWeek ∈ ([1, 2, 3, 4] : List ℕ)))

/-- `rest_of_week[rest_of_week['High'] > monday_high]`: the candidate rows
whose high strictly exceeds Monday's high. -/
def highBreakRows (g : List Candle) (monday_high : ℚ) : List Candle :=
  (restOfWeek g).filter (fun c => decide (monday_high < c.high))

/-- `rest_of_week[rest_of_week['Low'] < monday_low]`: the candidate rows whose
low strictly undercuts Monday's low. -/
def lowBreakRows (g : List Candle) (monday_low : ℚ) : List Candle :=
  (restOfWeek g).filter (fun c => decide (c.low < monday_low))

/-- The accumulator of `analyze_monday_ranges` (analyze_monday_ranges.py,
lines 51-89).  The two `Counter` objects are modelled by the lists of recorded
first-break days in week-iteration order; a counter tally is a `List.count`
over that list, and the counter's keys (in Python insertion order) are the
first occurrences in the list. -/
structure RangesResult where
  total_mondays : ℕ
  monday_highs_taken : ℕ
  monday_lows_taken : ℕ
  both_broken : ℕ
  day_high_break : List ℕ
  day_low_break : List ℕ
deriving DecidableEq

/-- The zero-initialised accumulator of `analyze_monday_ranges`. -/
def initRanges : RangesResult :=
  { total_mondays := 0, monday_highs_taken := 0, monday_lows_taken := 0
    both_broken := 0, day_high_break := [], day_low_break := [] }

/-- One iteration of the `analyze_monday_ranges` loop (analyze_monday_ranges.py,
lines 58-87) on a `(key, group)` pair: skip the week when it has no Monday
row, otherwise take the first Monday row's high/low as the reference, detect
strict high/low breaks among the Tuesday-Friday rows, and record the first
break row's weekday. -/
def stepRanges (r : RangesResult) (kg : (ℕ × ℕ) × List Candle) : RangesResult :=
  let week_data := kg.2
  match mondayRows week_data with
  | [] => r
  | monday :: _ =>
    let high_break_days := highBreakRows week_data monday.high
    let high_broken := !high_break_days.isEmpty
    let low_break_days := lowBreakRows week_data monday.low
    let low_broken := !low_break_days.isEmpty
    { total_mondays := r.total_mondays + 1
      monday_highs_taken := r.monday_highs_taken + (if high_broken then 1 else 0)
      monday_lows_taken := r.monday_lows_taken + (if low_broken then 1 else 0)
      both_broken := r.both_broken + (if high_broken && low_broken then 1 else 0)
      day_high_break :=
        r.day_high_break ++ ((high_break_days.head?.map (fun c => c.dayOfWeek)).toList)
      day_low_break :=
        r.day_low_break ++ ((low_break_days.head?.map (fun c => c.dayOfWeek)).toList) }

/-- `analyze_monday_ranges` (analyze_monday_ranges.py, lines 35-89): fold the
per-week step over the groupby groups. -/
def analyze_monday_ranges (df : List Candle) : RangesResult :=
  (weekGroups df).foldl stepRanges initRanges

/-- The `week_info` dictionary built for one eligible week by
`analyze_partial_breaks` (monday_partial_breaks.py, lines 80-88). -/
structure WeekInfo where
  date : ℕ
  week : ℕ
  year : ℕ
  mondayHigh : ℚ
  mondayLow : ℚ
  highBreakDay : Option ℕ
  lowBreakDay : Option ℕ
deriving DecidableEq

/-- The five return values of `analyze_partial_breaks`
(monday_partial_breaks.py, lines 38-99). -/
structure BreaksResult where
  only_high_broken : List WeekInfo
  only_low_broken : List WeekInfo
  neither_broken : List WeekInfo
  both_broken : List WeekInfo
  total_mondays : ℕ
deriving DecidableEq

/-- The empty accumulator of `analyze_partial_breaks`. -/
def initBreaks : BreaksResult :=
  { only_high_broken := [], only_low_broken := [], neither_broken := []
    both_broken := [], total_mondays := 0 }

/-- One iteration of the `analyze_partial_breaks` loop
(monday_partial_breaks.py, lines 59-97): skip weeks without a Monday row,
classify the week against the first Monday row's high/low, build the
`week_info` record and append it to exactly one of the four category lists. -/
def stepBreaks (r : BreaksResult) (kg : (ℕ × ℕ) × List Candle) : BreaksResult :=
  let week_data := kg.2
  match mondayRows week_data with
  | [] => r
  | monday :: _ =>
    let high_break_days := highBreakRows week_data monday.high
    let high_broken := !high_break_days.isEmpty
    let low_break_days := lowBreakRows week_data monday.low
    let low_broken := !low_break_days.isEmpty
    let week_info : WeekInfo :=
      { date := monday.date, week := kg.1.1, year := kg.1.2
        mondayHigh := monday.high, mondayLow := monday.low
        highBreakDay := high_break_days.head?.map (fun c => c.dayOfWeek)
        lowBreakDay := low_break_days.head?.map (fun c => c.dayOfWeek) }
    let r := { r with total_mondays := r.total_mondays + 1 }
    if high_broken && !low_broken then
      { r with only_high_broken := r.only_high_broken ++ [week_info] }
    else if low_broken && !high_broken then
      { r with only_low_broken := r.only_low_broken ++ [week_info] }
    else if !high_broken && !low_broken then
      { r with neither_broken := r.neither_broken ++ [week_info] }
    else
      { r with both_broken := r.both_broken ++ [week_info] }

/-- `analyze_partial_breaks` (monday_partial_breaks.py, lines 38-99): fold the
per-week classification over the groupby groups. -/
def analyze_break_categories (df : List Candle) : BreaksResult :=
  (weekGroups df).foldl stepBreaks initBreaks

/-- The `day_names` dictionary lookup `{1: 'Tuesday', ..., 4: 'Friday'}[day]`
of `calculate_probabilities` (analyze_monday_ranges.py, line 120); `none`
models the `KeyError` a Python dict raises on a missing key. -/
def day_names (day : ℕ) : Option String :=
  if day = 1 then some "Tuesday"
  else if day = 2 then some "Wednesday"
  else if day = 3 then some "Thursday"
  else if day = 4 then some "Friday"
  else none

/-- The distinct keys of a counter modelled as a list of recorded increments,
in first-occurrence order: the iteration order of `Counter.items()`. -/
def counterKeys : List ℕ → List ℕ
  | [] => []
  | d :: rest => d :: counterKeys (rest.filter (fun x => !(x == d)))
termination_by l => l.length
decreasing_by
  simp only [List.length_cons]
  exact Nat.lt_succ_of_le (List.length_filter_le _ rest)

/-- The four return values of `calculate_probabilities`
(analyze_monday_ranges.py, lines 91-126): the day-conditional dictionaries map
the `day_names` lookup of each counter key to `count / denominator`, guarded
to `0` when the denominator is zero. -/
structure ProbResult where
  high_break_prob : ℚ
  low_break_prob : ℚ
  day_high_probs : List (Option String × ℚ)
  day_low_probs : List (Option String × ℚ)
deriving DecidableEq

/-- `calculate_probabilities` (analyze_monday_ranges.py, lines 91-126).  The
unused `both_broken` argument mirrors the Python signature. -/
def calculate_probabilities (total_mondays monday_highs_taken monday_lows_taken
    both_broken : ℕ) (day_high_break day_low_break : List ℕ) : ProbResult :=
  { high_break_prob :=
      if 0 < total_mondays then (monday_highs_taken : ℚ) / total_mondays else 0
    low_break_prob :=
      if 0 < total_mondays then (monday_lows_taken : ℚ) / total_mondays else 0
    day_high_probs :=
      (counterKeys day_high_break).map (fun d =>
        (day_names d,
          if 0 < monday_highs_taken then
            (day_high_break.count d : ℚ) / monday_highs_taken
          else 0))
    day_low_probs :=
      (counterKeys day_low_break).map (fun d =>
        (day_names d,
          if 0 < monday_lows_taken then
            (day_low_break.count d : ℚ) / monday_lows_taken
          else 0)) }

/-- The either-break probability of `print_results` (analyze_monday_ranges.py,
line 159): `(monday_highs_taken + monday_lows_taken - both_broken) /
total_mondays if total_mondays > 0 else 0`, over exact rationals. -/
def either_break_prob (r : RangesResult) : ℚ :=
  if 0 < r.total_mondays then
    ((r.monday_highs_taken : ℚ) + r.monday_lows_taken - r.both_broken) / r.total_mondays
  else 0

/-- Python's true division: `a / b` raises `ZeroDivisionError` when `b = 0`,
modelled as `none`. -/
def pydiv (a b : ℚ) : Option ℚ := if b = 0 then none else some (a / b)

/-- The unguarded percentage of incomplete breaks computed by
`create_excel_report` (monday_partial_breaks.py, line 196):
`(len(only_high_broken) + len(only_low_broken) + len(neither_broken)) /
total_mondays`. -/
def incomplete_breaks_pct (r : BreaksResult) : Option ℚ :=
  pydiv ((r.only_high_broken.length + r.only_low_broken.length +
    r.neither_broken.length : ℕ) : ℚ) (r.total_mondays : ℚ)

/-- The unguarded percentage of both-broken weeks computed by
`create_excel_report` (monday_partial_breaks.py, line 197):
`len(both_broken) / total_mondays`. -/
def both_breaks_pct (r : BreaksResult) : Option ℚ :=
  pydiv ((r.both_broken.length : ℕ) : ℚ) (r.total_mondays : ℚ)

/-! ### Per-week classification predicates

The following definitions name, for one groupby key, the boolean outcomes the
per-week loop body computes (`high_broken`, `low_broken`, presence of a
Monday row, the recorded first-break day, the built `week_info`).  They are
used to characterise the loop folds. -/

/-- The week of key `k` has a Monday row (`len(monday_data) != 0`). -/
def weekHasMonday (df : List Candle) (k : ℕ × ℕ) : Bool :=
  !(mondayRows (weekGroup df k)).isEmpty

/-- The `high_broken` flag of the week of key `k`: some Tuesday-Friday row's
high strictly exceeds the first Monday row's high; `false` when the week has
no Monday row (the loop skips it). -/
def weekHighBroken (df : List Candle) (k : ℕ × ℕ) : Bool :=
  match mondayRows (weekGroup df k) with
  | [] => false
  | monday :: _ => !(highBreakRows (weekGroup df k) monday.high).isEmpty

/-- The `low_broken` flag of the week of key `k`. -/
def weekLowBroken (df : List Candle) (k : ℕ × ℕ) : Bool :=
  match mondayRows (weekGroup df k) with
  | [] => false
  | monday :: _ => !(lowBreakRows (weekGroup df k) monday.low).isEmpty

/-- The first high-break day recorded for the week of key `k`, when any. -/
def firstHighDay (df : List Candle) (k : ℕ × ℕ) : Option ℕ :=
  match mondayRows (weekGroup df k) with
  | [] => none
  | monday :: _ =>
    (highBreakRows (weekGroup df k) monday.high).head?.map (fun c => c.dayOfWeek)

/-- The first low-break day recorded for the week of key `k`, when any. -/
def firstLowDay (df : List Candle) (k : ℕ × ℕ) : Option ℕ :=
  match mondayRows (weekGroup df k) with
  | [] => none
  | monday :: _ =>
    (lowBreakRows (weekGroup df k) monday.low).head?.map (fun c => c.dayOfWeek)

/-- The `week_info` record built for the week of key `k`, when eligible. -/
def weekInfoOf (df : List Candle) (k : ℕ × ℕ) : Option WeekInfo :=
  match mondayRows (weekGroup df k) with
  | [] => none
  | monday :: _ => some
    { date := monday.date, week := k.1, year := k.2
      mondayHigh := monday.high, mondayLow := monday.low
      highBreakDay :=
        (highBreakRows (weekGroup df k) monday.high).head?.map (fun c => c.dayOfWeek)
      lowBreakDay :=
        (lowBreakRows (weekGroup df k) monday.low).head?.map (fun c => c.dayOfWeek) }

/-- The `week_info` appended to `only_high_broken` for key `k`, when any. -/
def onlyHighInfo (df : List Candle) (k : ℕ × ℕ) : Option WeekInfo :=
  if weekHighBroken df k && !(weekLowBroken df k) then weekInfoOf df k else none

/-- The `week_info` appended to `only_low_broken` for key `k`, when any. -/
def onlyLowInfo (df : List Candle) (k : ℕ × ℕ) : Option WeekInfo :=
  if weekLowBroken df k && !(weekHighBroken df k) then weekInfoOf df k else none

/-- The `week_info` appended to `neither_broken` for key `k`, when any. -/
def neitherInfo (df : List Candle) (k : ℕ × ℕ) : Option WeekInfo :=
  if weekHasMonday df k && !(weekHighBroken df k) && !(weekLowBroken df k) then
    weekInfoOf df k
  else none

/-- The `week_info` appended to `both_broken` for key `k`, when any. -/
def bothInfo (df : List Candle) (k : ℕ × ℕ) : Option WeekInfo :=
  if weekHighBroken df k && weekLowBroken df k then weekInfoOf df k else none

theorem stepRanges_total (df : List Candle) (r : RangesResult) (k : ℕ × ℕ) :
    (stepRanges r (k, weekGroup df k)).total_mondays =
      r.total_mondays + (if weekHasMonday df k then 1 else 0) := by
  unfold stepRanges weekHasMonday
  cases h : mondayRows (weekGroup df k) with
  | nil => simp [h]
  | cons monday tl => simp [h]

theorem stepRanges_highs (df : List Candle) (r : RangesResult) (k : ℕ × ℕ) :
    (stepRanges r (k, weekGroup df k)).monday_highs_taken =
      r.monday_highs_taken + (if weekHighBroken df k then 1 else 0) := by
  unfold stepRanges weekHighBroken
  cases h : mondayRows (weekGroup df k) with
  | nil => simp [h]
  | cons monday tl => simp [h]

theorem stepRanges_lows (df : List Candle) (r : RangesResult) (k : ℕ × ℕ) :
    (stepRanges r (k, weekGroup df k)).monday_lows_taken =
      r.monday_lows_taken + (if weekLowBroken df k then 1 else 0) := by
  unfold stepRanges weekLowBroken
  cases h : mondayRows (weekGroup df k) with
  | nil => simp [h]
  | cons monday tl => simp [h]

theorem stepRanges_both (df : List Candle) (r : RangesResult) (k : ℕ × ℕ) :
    (stepRanges r (k, weekGroup df k)).both_broken =
      r.both_broken + (if weekHighBroken df k && weekLowBroken df k then 1 else 0) := by
  unfold stepRanges weekHighBroken weekLowBroken
  cases h : mondayRows (weekGroup df k) with
  | nil => simp [h]
  | cons monday tl => simp [h]

theorem stepRanges_dayHigh (df : List Candle) (r : RangesResult) (k : ℕ × ℕ) :
    (stepRanges r (k, weekGroup df k)).day_high_break =
      r.day_high_break ++ (firstHighDay df k).toList := by
  unfold stepRanges firstHighDay
  cases h : mondayRows (weekGroup df k) with
  | nil => simp [h]
  | cons monday tl => simp [h]

theorem stepRanges_dayLow (df : List Candle) (r : RangesResult) (k : ℕ × ℕ) :
    (stepRanges r (k, weekGroup df k)).day_low_break =
      r.day_low_break ++ (firstLowDay df k).toList := by
  unfold stepRanges firstLowDay
  cases h : mondayRows (weekGroup df k) with
  | nil => simp [h]
  | cons monday tl => simp [h]

theorem stepBreaks_onlyHigh (df : List Candle) (r : BreaksResult) (k : ℕ × ℕ) :
    (stepBreaks r (k, weekGroup df k)).only_high_broken =
      r.only_high_broken ++ (onlyHighInfo df k).toList := by
  unfold stepBreaks onlyHighInfo weekInfoOf weekHighBroken weekLowBroken
  cases h : mondayRows (weekGroup df k) with
  | nil => simp [h]
  | cons monday tl =>
    cases hH : (highBreakRows (weekGroup df k) monday.high).isEmpty <;>
      cases hL : (lowBreakRows (weekGroup df k) monday.low).isEmpty <;>
        simp [h, hH, hL]

theorem stepBreaks_onlyLow (df : List Candle) (r : BreaksResult) (k : ℕ × ℕ) :
    (stepBreaks r (k, weekGroup df k)).only_low_broken =
      r.only_low_broken ++ (onlyLowInfo df k).toList := by
  unfold stepBreaks onlyLowInfo weekInfoOf weekHighBroken weekLowBroken
  cases h : mondayRows (weekGroup df k) with
  | nil => simp [h]
  | cons monday tl =>
    cases hH : (highBreakRows (weekGroup df k) monday.high).isEmpty <;>
      cases hL : (lowBreakRows (weekGroup df k) monday.low).isEmpty <;>
        simp [h, hH, hL]

theorem stepBreaks_neither (df : List Candle) (r : BreaksResult) (k : ℕ × ℕ) :
    (stepBreaks r (k, weekGroup df k)).neither_broken =
      r.neither_broken ++ (neitherInfo df k).toList := by
  unfold stepBreaks neitherInfo weekInfoOf weekHasMonday weekHighBroken weekLowBroken
  cases h : mondayRows (weekGroup df k) with
  | nil => simp [h]
  | cons monday tl =>
    cases hH : (highBreakRows (weekGroup df k) monday.high).isEmpty <;>
      cases hL : (lowBreakRows (weekGroup df k) monday.low).isEmpty <;>
        simp [h, hH, hL]

theorem stepBreaks_both (df : List Candle) (r : BreaksResult) (k : ℕ × ℕ) :
    (stepBreaks r (k, weekGroup df k)).both_broken =
      r.both_broken ++ (bothInfo df k).toList := by
  unfold stepBreaks bothInfo weekInfoOf weekHighBroken weekLowBroken
  cases h : mondayRows (weekGroup df k) with
  | nil => simp [h]
  | cons monday tl =>
    cases hH : (highBreakRows (weekGroup df k) monday.high).isEmpty <;>
      cases hL : (lowBreakRows (weekGroup df k) monday.low).isEmpty <;>
        simp [h, hH, hL]

theorem stepBreaks_total (df : List Candle) (r : BreaksResult) (k : ℕ × ℕ) :
    (stepBreaks r (k, weekGroup df k)).total_mondays =
      r.total_mondays + (if weekHasMonday df k then 1 else 0) := by
  unfold stepBreaks weekHasMonday
  cases h : mondayRows (weekGroup df k) with
  | nil => simp [h]
  | cons monday tl =>
    cases hH : (highBreakRows (weekGroup df k) monday.high).isEmpty <;>
      cases hL : (lowBreakRows (weekGroup df k) monday.low).isEmpty <;>
        simp [h, hH, hL]

theorem toList_append_filterMap {α β : Type} (f : α → Option β) (a : α) (l : List α)
    (acc : List β) :
    acc ++ (f a).toList ++ l.filterMap f = acc ++ (a :: l).filterMap f := by
  cases h : f a <;> simp [List.filterMap_cons, h]

theorem foldRanges_total (df : List Candle) (ks : List (ℕ × ℕ)) (r : RangesResult) :
    ((ks.map (fun k => (k, weekGroup df k))).foldl stepRanges r).total_mondays =
      r.total_mondays + ks.countP (weekHasMonday df) := by
  induction ks generalizing r with
  | nil => simp
  | cons k ks ih =>
    simp only [List.map_cons, List.foldl_cons, List.countP_cons]
    rw [ih, stepRanges_total]
    omega

theorem foldRanges_highs (df : List Candle) (ks : List (ℕ × ℕ)) (r : RangesResult) :
    ((ks.map (fun k => (k, weekGroup df k))).foldl stepRanges r).monday_highs_taken =
      r.monday_highs_taken + ks.countP (weekHighBroken df) := by
  induction ks generalizing r with
  | nil => simp
  | cons k ks ih =>
    simp only [List.map_cons, List.foldl_cons, List.countP_cons]
    rw [ih, stepRanges_highs]
    omega

theorem foldRanges_lows (df : List Candle) (ks : List (ℕ × ℕ)) (r : RangesResult) :
    ((ks.map (fun k => (k, weekGroup df k))).foldl stepRanges r).monday_lows_taken =
      r.monday_lows_taken + ks.countP (weekLowBroken df) := by
  induction ks generalizing r with
  | nil => simp
  | cons k ks ih =>
    simp only [List.map_cons, List.foldl_cons, List.countP_cons]
    rw [ih, stepRanges_lows]
    omega

theorem foldRanges_both (df : List Candle) (ks : List (ℕ × ℕ)) (r : RangesResult) :
    ((ks.map (fun k => (k, weekGroup df k))).foldl stepRanges r).both_broken =
      r.both_broken + ks.countP (fun k => weekHighBroken df k && weekLowBroken df k) := by
  induction ks generalizing r with
  | nil => simp
  | cons k ks ih =>
    simp only [List.map_cons, List.foldl_cons, List.countP_cons]
    rw [ih, stepRanges_both]
    omega

theorem foldRanges_dayHigh (df : List Candle) (ks : List (ℕ × ℕ)) (r : RangesResult) :
    ((ks.map (fun k => (k, weekGroup df k))).foldl stepRanges r).day_high_break =
      r.day_high_break ++ ks.filterMap (firstHighDay df) := by
  induction ks generalizing r with
  | nil => simp
  | cons k ks ih =>
    simp only [List.map_cons, List.foldl_cons]
    rw [ih, stepRanges_dayHigh, toList_append_filterMap]

theorem foldRanges_dayLow (df : List Candle) (ks : List (ℕ × ℕ)) (r : RangesResult) :
    ((ks.map (fun k => (k, weekGroup df k))).foldl stepRanges r).day_low_break =
      r.day_low_break ++ ks.filterMap (firstLowDay df) := by
  induction ks generalizing r with
  | nil => simp
  | cons k ks ih =>
    simp only [List.map_cons, List.foldl_cons]
    rw [ih, stepRanges_dayLow, toList_append_filterMap]

theorem foldBreaks_onlyHigh (df : List Candle) (ks : List (ℕ × ℕ)) (r : BreaksResult) :
    ((ks.map (fun k => (k, weekGroup df k))).foldl stepBreaks r).only_high_broken =
      r.only_high_broken ++ ks.filterMap (onlyHighInfo df) := by
  induction ks generalizing r with
  | nil => simp
  | cons k ks ih =>
    simp only [List.map_cons, List.foldl_cons]
    rw [ih, stepBreaks_onlyHigh, toList_append_filterMap]

theorem foldBreaks_onlyLow (df : List Candle) (ks : List (ℕ × ℕ)) (r : BreaksResult) :
    ((ks.map (fun k => (k, weekGroup df k))).foldl stepBreaks r).only_low_broken =
      r.only_low_broken ++ ks.filterMap (onlyLowInfo df) := by
  induction ks generalizing r with
  | nil => simp
  | cons k ks ih =>
    simp only [List.map_cons, List.foldl_cons]
    rw [ih, stepBreaks_onlyLow, toList_append_filterMap]

theorem foldBreaks_neither (df : List Candle) (ks : List (ℕ × ℕ)) (r : BreaksResult) :
    ((ks.map (fun k => (k, weekGroup df k))).foldl stepBreaks r).neither_broken =
      r.neither_broken ++ ks.filterMap (neitherInfo df) := by
  induction ks generalizing r with
  | nil => simp
  | cons k ks ih =>
    simp only [List.map_cons, List.foldl_cons]
    rw [ih, stepBreaks_neither, toList_append_filterMap]

theorem foldBreaks_both (df : List Candle) (ks : List (ℕ × ℕ)) (r : BreaksResult) :
    ((ks.map (fun k => (k, weekGroup df k))).foldl stepBreaks r).both_broken =
      r.both_broken ++ ks.filterMap (bothInfo df) := by
  induction ks generalizing r with
  | nil => simp
  | cons k ks ih =>
    simp only [List.map_cons, List.foldl_cons]
    rw [ih, stepBreaks_both, toList_append_filterMap]

theorem foldBreaks_total (df : List Candle) (ks : List (ℕ × ℕ)) (r : BreaksResult) :
    ((ks.map (fun k => (k, weekGroup df k))).foldl stepBreaks r).total_mondays =
      r.total_mondays + ks.countP (weekHasMonday df) := by
  induction ks generalizing r with
  | nil => simp
  | cons k ks ih =>
    simp only [List.map_cons, List.foldl_cons, List.countP_cons]
    rw [ih, stepBreaks_total]
    omega

theorem ranges_total_eq (df : List Candle) :
    (analyze_monday_ranges df).total_mondays =
      (sortedKeys df).countP (weekHasMonday df) := by
  unfold analyze_monday_ranges weekGroups
  rw [foldRanges_total]
  simp [initRanges]

theorem ranges_highs_eq (df : List Candle) :
    (analyze_monday_ranges df).monday_highs_taken =
      (sortedKeys df).countP (weekHighBroken df) := by
  unfold analyze_monday_ranges weekGroups
  rw [foldRanges_highs]
  simp [initRanges]

theorem ranges_lows_eq (df : List Candle) :
    (analyze_monday_ranges df).monday_lows_taken =
      (sortedKeys df).countP (weekLowBroken df) := by
  unfold analyze_monday_ranges weekGroups
  rw [foldRanges_lows]
  simp [initRanges]

theorem ranges_both_eq (df : List Candle) :
    (analyze_monday_ranges df).both_broken =
      (sortedKeys df).countP (fun k => weekHighBroken df k && weekLowBroken df k) := by
  unfold analyze_monday_ranges weekGroups
  rw [foldRanges_both]
  simp [initRanges]

theorem ranges_dayHigh_eq (df : List Candle) :
    (analyze_monday_ranges df).day_high_break =
      (sortedKeys df).filterMap (firstHighDay df) := by
  unfold analyze_monday_ranges weekGroups
  rw [foldRanges_dayHigh]
  rfl

theorem ranges_dayLow_eq (df : List Candle) :
    (analyze_monday_ranges df).day_low_break =
      (sortedKeys df).filterMap (firstLowDay df) := by
  unfold analyze_monday_ranges weekGroups
  rw [foldRanges_dayLow]
  rfl

theorem breaks_onlyHigh_eq (df : List Candle) :
    (analyze_break_categories df).only_high_broken =
      (sortedKeys df).filterMap (onlyHighInfo df) := by
  unfold analyze_break_categories weekGroups
  rw [foldBreaks_onlyHigh]
  rfl

theorem breaks_onlyLow_eq (df : List Candle) :
    (analyze_break_categories df).only_low_broken =
      (sortedKeys df).filterMap (onlyLowInfo df) := by
  unfold analyze_break_categories weekGroups
  rw [foldBreaks_onlyLow]
  rfl

theorem breaks_neither_eq (df : List Candle) :
    (analyze_break_categories df).neither_broken =
      (sortedKeys df).filterMap (neitherInfo df) := by
  unfold analyze_break_categories weekGroups
  rw [foldBreaks_neither]
  rfl

theorem breaks_both_eq (df : List Candle) :
    (analyze_break_categories df).both_broken =
      (sortedKeys df).filterMap (bothInfo df) := by
  unfold analyze_break_categories weekGroups
  rw [foldBreaks_both]
  rfl

theorem breaks_total_eq (df : List Candle) :
    (analyze_break_categories df).total_mondays =
      (sortedKeys df).countP (weekHasMonday df) := by
  unfold analyze_break_categories weekGroups
  rw [foldBreaks_total]
  simp [initBreaks]

theorem weekInfoOf_isSome (df : List Candle) (k : ℕ × ℕ) :
    (weekInfoOf df k).isSome = weekHasMonday df k := by
  unfold weekInfoOf weekHasMonday
  cases h : mondayRows (weekGroup df k) <;> simp [h]

theorem weekHighBroken_monday (df : List Candle) (k : ℕ × ℕ)
    (h : weekHighBroken df k = true) : weekHasMonday df k = true := by
  unfold weekHighBroken at h
  unfold weekHasMonday
  cases hm : mondayRows (weekGroup df k) <;> simp [hm] at h ⊢

theorem weekLowBroken_monday (df : List Candle) (k : ℕ × ℕ)
    (h : weekLowBroken df k = true) : weekHasMonday df k = true := by
  unfold weekLowBroken at h
  unfold weekHasMonday
  cases hm : mondayRows (weekGroup df k) <;> simp [hm] at h ⊢

theorem onlyHighInfo_isSome (df : List Candle) (k : ℕ × ℕ) :
    (onlyHighInfo df k).isSome = (weekHighBroken df k && !(weekLowBroken df k)) := by
  unfold onlyHighInfo
  cases hc : (weekHighBroken df k && !(weekLowBroken df k)) with
  | false => simp [hc]
  | true =>
    simp only [hc, if_true, weekInfoOf_isSome]
    exact weekHighBroken_monday df k (Bool.and_elim_left hc)

theorem onlyLowInfo_isSome (df : List Candle) (k : ℕ × ℕ) :
    (onlyLowInfo df k).isSome = (weekLowBroken df k && !(weekHighBroken df k)) := by
  unfold onlyLowInfo
  cases hc : (weekLowBroken df k && !(weekHighBroken df k)) with
  | false => simp [hc]
  | true =>
    simp only [hc, if_true, weekInfoOf_isSome]
    exact weekLowBroken_monday df k (Bool.and_elim_left hc)

theorem neitherInfo_isSome (df : List Candle) (k : ℕ × ℕ) :
    (neitherInfo df k).isSome =
      (weekHasMonday df k && !(weekHighBroken df k) && !(weekLowBroken df k)) := by
  unfold neitherInfo
  cases hc : (weekHasMonday df k && !(weekHighBroken df k) && !(weekLowBroken df k)) with
  | false => simp [hc]
  | true =>
    simp only [hc, if_true, weekInfoOf_isSome]
    have := Bool.and_elim_left (Bool.and_elim_left hc)
    exact this

theorem bothInfo_isSome (df : List Candle) (k : ℕ × ℕ) :
    (bothInfo df k).isSome = (weekHighBroken df k && weekLowBroken df k) := by
  unfold bothInfo
  cases hc : (weekHighBroken df k && weekLowBroken df k) with
  | false => simp [hc]
  | true =>
    simp only [hc, if_true, weekInfoOf_isSome]
    exact weekHighBroken_monday df k (Bool.and_elim_left hc)

theorem firstHighDay_isSome (df : List Candle) (k : ℕ × ℕ) :
    (firstHighDay df k).isSome = weekHighBroken df k := by
  unfold firstHighDay weekHighBroken
  cases h : mondayRows (weekGroup df k) with
  | nil => simp [h]
  | cons monday tl =>
    cases hb : highBreakRows (weekGroup df k) monday.high <;> simp [h, hb]

theorem firstLowDay_isSome (df : List Candle) (k : ℕ × ℕ) :
    (firstLowDay df k).isSome = weekLowBroken df k := by
  unfold firstLowDay weekLowBroken
  cases h : mondayRows (weekGroup df k) with
  | nil => simp [h]
  | cons monday tl =>
    cases hb : lowBreakRows (weekGroup df k) monday.low <;> simp [h, hb]

theorem length_filterMap_eq_countP {α β : Type} (f : α → Option β) (l : List α) :
    (l.filterMap f).length = l.countP (fun a => (f a).isSome) := by
  induction l with
  | nil => simp
  | cons a t ih =>
    cases h : f a <;> simp [List.filterMap_cons, h, List.countP_cons, ih]

theorem countP_and_add_and_not {α : Type} (l : List α) (p q : α → Bool) :
    l.countP (fun a => p a && q a) + l.countP (fun a => p a && !(q a)) =
      l.countP p := by
  induction l with
  | nil => simp
  | cons a t ih =>
    simp only [List.countP_cons]
    cases hp : p a <;> cases hq : q a <;> simp [hp, hq] <;> omega

theorem countP_four_way {α : Type} (l : List α) (p q h : α → Bool)
    (hp : ∀ a ∈ l, p a = true → h a = true)
    (hq : ∀ a ∈ l, q a = true → h a = true) :
    l.countP (fun a => p a && !(q a)) + l.countP (fun a => q a && !(p a)) +
      l.countP (fun a => h a && !(p a) && !(q a)) + l.countP (fun a => p a && q a) =
      l.countP h := by
  induction l with
  | nil => simp
  | cons a t ih =>
    have hpa := hp a (List.mem_cons_self a t)
    have hqa := hq a (List.mem_cons_self a t)
    have ih' := ih (fun x hx => hp x (List.mem_cons_of_mem a hx))
      (fun x hx => hq x (List.mem_cons_of_mem a hx))
    simp only [List.countP_cons]
    cases hpb : p a <;> cases hqb : q a <;> cases hhb : h a <;>
      simp_all <;> omega

theorem countP_incl_excl {α : Type} (l : List α) (p q : α → Bool) :
    l.countP p + l.countP q =
      l.countP (fun a => p a || q a) + l.countP (fun a => p a && q a) := by
  induction l with
  | nil => simp
  | cons a t ih =>
    simp only [List.countP_cons]
    cases hp : p a <;> cases hq : q a <;> simp [hp, hq] <;> omega

theorem countP_or_add_neither {α : Type} (l : List α) (p q h : α → Bool)
    (hp : ∀ a ∈ l, p a = true → h a = true)
    (hq : ∀ a ∈ l, q a = true → h a = true) :
    l.countP (fun a => p a || q a) + l.countP (fun a => h a && !(p a) && !(q a)) =
      l.countP h := by
  induction l with
  | nil => simp
  | cons a t ih =>
    have hpa := hp a (List.mem_cons_self a t)
    have hqa := hq a (List.mem_cons_self a t)
    have ih' := ih (fun x hx => hp x (List.mem_cons_of_mem a hx))
      (fun x hx => hq x (List.mem_cons_of_mem a hx))
    simp only [List.countP_cons]
    cases hpb : p a <;> cases hqb : q a <;> cases hhb : h a <;>
      simp_all <;> omega

theorem onlyHigh_len_eq (df : List Candle) :
    (analyze_break_categories df).only_high_broken.length =
      (sortedKeys df).countP (fun k => weekHighBroken df k && !(weekLowBroken df k)) := by
  rw [breaks_onlyHigh_eq, length_filterMap_eq_countP]
  exact List.countP_congr (fun k _ => by rw [onlyHighInfo_isSome])

theorem onlyLow_len_eq (df : List Candle) :
    (analyze_break_categories df).only_low_broken.length =
      (sortedKeys df).countP (fun k => weekLowBroken df k && !(weekHighBroken df k)) := by
  rw [breaks_onlyLow_eq, length_filterMap_eq_countP]
  exact List.countP_congr (fun k _ => by rw [onlyLowInfo_isSome])

theorem neither_len_eq (df : List Candle) :
    (analyze_break_categories df).neither_broken.length =
      (sortedKeys df).countP
        (fun k => weekHasMonday df k && !(weekHighBroken df k) && !(weekLowBroken df k)) := by
  rw [breaks_neither_eq, length_filterMap_eq_countP]
  exact List.countP_congr (fun k _ => by rw [neitherInfo_isSome])

theorem both_len_eq (df : List Candle) :
    (analyze_break_categories df).both_broken.length =
      (sortedKeys df).countP (fun k => weekHighBroken df k && weekLowBroken df k) := by
  rw [breaks_both_eq, length_filterMap_eq_countP]
  exact List.countP_congr (fun k _ => by rw [bothInfo_isSome])

/-- C2: every eligible week lands in exactly one of the four category lists
according to its `high_broken` / `low_broken` flags, and the four list lengths
sum to the returned total of analyzed Mondays. -/
theorem c2_exhaustive_categories (df : List Candle) :
    (analyze_break_categories df).only_high_broken.length =
      (sortedKeys df).countP (fun k => weekHighBroken df k && !(weekLowBroken df k)) ∧
    (analyze_break_categories df).only_low_broken.length =
      (sortedKeys df).countP (fun k => weekLowBroken df k && !(weekHighBroken df k)) ∧
    (analyze_break_categories df).neither_broken.length =
      (sortedKeys df).countP
        (fun k => weekHasMonday df k && !(weekHighBroken df k) && !(weekLowBroken df k)) ∧
    (analyze_break_categories df).both_broken.length =
      (sortedKeys df).countP (fun k => weekHighBroken df k && weekLowBroken df k) ∧
    (analyze_break_categories df).only_high_broken.length +
      (analyze_break_categories df).only_low_broken.length +
      (analyze_break_categories df).neither_broken.length +
      (analyze_break_categories df).both_broken.length =
      (analyze_break_categories df).total_mondays := by
  refine ⟨onlyHigh_len_eq df, onlyLow_len_eq df, neither_len_eq df, both_len_eq df, ?_⟩
  rw [onlyHigh_len_eq, onlyLow_len_eq, neither_len_eq, both_len_eq, breaks_total_eq]
  exact countP_four_way (sortedKeys df) (weekHighBroken df) (weekLowBroken df)
    (weekHasMonday df) (fun k _ => weekHighBroken_monday df k)
    (fun k _ => weekLowBroken_monday df k)

/-- C3: the counts returned by `analyze_monday_ranges` refine the categorized
lists returned by `analyze_partial_breaks` on the same input: the high-break
count is the only-high list length plus the both list length, likewise for
low, and the two functions return the same total of analyzed Mondays. -/
theorem c3_counts_refine_categories (df : List Candle) :
    (analyze_monday_ranges df).monday_highs_taken =
      (analyze_break_categories df).only_high_broken.length +
        (analyze_break_categories df).both_broken.length ∧
    (analyze_monday_ranges df).monday_lows_taken =
      (analyze_break_categories df).only_low_broken.length +
        (analyze_break_categories df).both_broken.length ∧
    (analyze_monday_ranges df).total_mondays =
      (analyze_break_categories df).total_mondays := by
  refine ⟨?_, ?_, ?_⟩
  · rw [onlyHigh_len_eq, both_len_eq, ranges_highs_eq, Nat.add_comm]
    exact (countP_and_add_and_not (sortedKeys df) (weekHighBroken df)
      (weekLowBroken df)).symm
  · rw [onlyLow_len_eq, both_len_eq, ranges_lows_eq, Nat.add_comm]
    have := countP_and_add_and_not (sortedKeys df) (weekLowBroken df)
      (weekHighBroken df)
    rw [← this]
    congr 1
    exact List.countP_congr (fun k _ => by rw [Bool.and_comm])
  · rw [ranges_total_eq, breaks_total_eq]

/-- C4: with at least one analyzed Monday, the either-break probability
computed by inclusion-exclusion in `print_results` equals `1 -
neitherBrokenCount / totalMondays`, over exact rationals. -/
theorem c4_either_break_prob (df : List Candle)
    (htot : 0 < (analyze_monday_ranges df).total_mondays) :
    either_break_prob (analyze_monday_ranges df) =
      1 - ((analyze_break_categories df).neither_broken.length : ℚ) /
        ((analyze_monday_ranges df).total_mondays : ℚ) := by
  have hie := countP_incl_excl (sortedKeys df) (weekHighBroken df) (weekLowBroken df)
  have hon := countP_or_add_neither (sortedKeys df) (weekHighBroken df)
    (weekLowBroken df) (weekHasMonday df)
    (fun k _ => weekHighBroken_monday df k) (fun k _ => weekLowBroken_monday df k)
  have htot' : 0 < (sortedKeys df).countP (weekHasMonday df) := by
    rw [← ranges_total_eq]; exact htot
  have hTne : (((sortedKeys df).countP (weekHasMonday df) : ℚ)) ≠ 0 := by
    exact_mod_cast Nat.pos_iff_ne_zero.mp htot'
  unfold either_break_prob
  rw [if_pos htot]
  rw [ranges_highs_eq, ranges_lows_eq, ranges_both_eq, ranges_total_eq, neither_len_eq]
  have hieQ : (((sortedKeys df).countP (weekHighBroken df) : ℚ)) +
      ((sortedKeys df).countP (weekLowBroken df) : ℚ) =
      ((sortedKeys df).countP
        (fun k => weekHighBroken df k || weekLowBroken df k) : ℚ) +
      ((sortedKeys df).countP
        (fun k => weekHighBroken df k && weekLowBroken df k) : ℚ) := by
    exact_mod_cast hie
  have honQ : (((sortedKeys df).countP
      (fun k => weekHighBroken df k || weekLowBroken df k) : ℚ)) +
      ((sortedKeys df).countP
        (fun k => weekHasMonday df k && !(weekHighBroken df k) &&
          !(weekLowBroken df k)) : ℚ) =
      ((sortedKeys df).countP (weekHasMonday df) : ℚ) := by
    exact_mod_cast hon
  field_simp
  linarith [hieQ, honQ]

/-- A convenient candle builder for the concrete example datasets below. -/
def mkCandle (d dow w y : ℕ) (h l : ℚ) : Candle :=
  { date := d, open_ := h, high := h, low := l, close := l
    dayOfWeek := dow, week := w, year := y }

/-- One fully eligible week: Monday range [5, 10], Tuesday breaks the high,
Wednesday breaks the low. -/
def exampleWeek : List Candle :=
  [mkCandle 0 0 10 2024 10 5, mkCandle 1 1 10 2024 12 6, mkCandle 2 2 10 2024 9 3]

theorem c4_either_break_prob_witness :
    0 < (analyze_monday_ranges exampleWeek).total_mondays ∧
    either_break_prob (analyze_monday_ranges exampleWeek) =
      1 - ((analyze_break_categories exampleWeek).neither_broken.length : ℚ) /
        ((analyze_monday_ranges exampleWeek).total_mondays : ℚ) :=
  ⟨by decide, c4_either_break_prob exampleWeek (by decide)⟩

theorem counterKeys_subset (l : List ℕ) : ∀ x ∈ counterKeys l, x ∈ l := by
  induction l using counterKeys.induct with
  | case1 => simp [counterKeys]
  | case2 d rest ih =>
    intro x hx
    rw [counterKeys] at hx
    rcases List.mem_cons.mp hx with h | h
    · exact h ▸ List.mem_cons_self _ _
    · exact List.mem_cons_of_mem _ (List.mem_of_mem_filter (ih x h))

theorem counterKeys_sum_count (l : List ℕ) :
    ((counterKeys l).map (fun d => l.count d)).sum = l.length := by
  induction l using counterKeys.induct with
  | case1 => simp [counterKeys]
  | case2 d rest ih =>
    rw [counterKeys]
    simp only [List.map_cons, List.sum_cons]
    have hcong : (counterKeys (rest.filter (fun x => !(x == d)))).map
        (fun x => (d :: rest).count x) =
        (counterKeys (rest.filter (fun x => !(x == d)))).map
        (fun x => (rest.filter (fun x => !(x == d))).count x) := by
      refine List.map_congr_left (fun x hx => ?_)
      have hxf := counterKeys_subset _ x hx
      have hxd : ¬(x == d) = true := by
        simpa using List.of_mem_filter hxf
      have hxd' : x ≠ d := by simpa using hxd
      rw [List.count_cons_of_ne hxd', List.count_filter]
      simpa using hxd'
    rw [hcong, ih, List.count_cons_self]
    have hsplit : rest.length =
        rest.count d + (rest.filter (fun x => !(x == d))).length := by
      rw [List.count_eq_countP, List.countP_eq_length_filter]
      have h := List.length_eq_countP_add_countP (fun x => x == d) rest
      rw [List.countP_eq_length_filter, List.countP_eq_length_filter] at h
      rw [h]
      congr 2
      apply List.filter_congr
      intro x _
      by_cases hxd : x = d <;> simp [hxd]
    simp only [List.length_cons]
    omega

theorem dayHigh_len_eq (df : List Candle) :
    (analyze_monday_ranges df).day_high_break.length =
      (analyze_monday_ranges df).monday_highs_taken := by
  rw [ranges_dayHigh_eq, length_filterMap_eq_countP, ranges_highs_eq]
  exact List.countP_congr (fun k _ => by rw [firstHighDay_isSome])

theorem dayLow_len_eq (df : List Candle) :
    (analyze_monday_ranges df).day_low_break.length =
      (analyze_monday_ranges df).monday_lows_taken := by
  rw [ranges_dayLow_eq, length_filterMap_eq_countP, ranges_lows_eq]
  exact List.countP_congr (fun k _ => by rw [firstLowDay_isSome])

theorem sum_counter_probs (l : List ℕ) (n : ℕ) (hlen : l.length = n) (hpos : 0 < n) :
    ((counterKeys l).map (fun d => (l.count d : ℚ) / (n : ℚ))).sum = 1 := by
  have hne : (n : ℚ) ≠ 0 := by
    exact_mod_cast Nat.pos_iff_ne_zero.mp hpos
  simp only [div_eq_mul_inv]
  rw [List.sum_map_mul_right]
  have h2 : ((counterKeys l).map (fun d => (l.count d : ℚ))).sum =
      (((counterKeys l).map (fun d => l.count d)).sum : ℚ) := by
    rw [Nat.cast_list_sum, List.map_map]
    rfl
  rw [h2, counterKeys_sum_count, hlen]
  exact mul_inv_cancel₀ hne

/-- C5: the recorded first-break-day tallies sum exactly to the corresponding
break count (every break week records exactly one first-break day), so the
day-conditional probabilities of `calculate_probabilities` sum to exactly 1
when the break count is positive; both for high and for low breaks. -/
theorem c5_day_probs_sum (df : List Candle) :
    ((counterKeys (analyze_monday_ranges df).day_high_break).map
        (fun d => (analyze_monday_ranges df).day_high_break.count d)).sum =
      (analyze_monday_ranges df).monday_highs_taken ∧
    ((counterKeys (analyze_monday_ranges df).day_low_break).map
        (fun d => (analyze_monday_ranges df).day_low_break.count d)).sum =
      (analyze_monday_ranges df).monday_lows_taken ∧
    (0 < (analyze_monday_ranges df).monday_highs_taken →
      ((calculate_probabilities (analyze_monday_ranges df).total_mondays
          (analyze_monday_ranges df).monday_highs_taken
          (analyze_monday_ranges df).monday_lows_taken
          (analyze_monday_ranges df).both_broken
          (analyze_monday_ranges df).day_high_break
          (analyze_monday_ranges df).day_low_break).day_high_probs.map
        Prod.snd).sum = 1) ∧
    (0 < (analyze_monday_ranges df).monday_lows_taken →
      ((calculate_probabilities (analyze_monday_ranges df).total_mondays
          (analyze_monday_ranges df).monday_highs_taken
          (analyze_monday_ranges df).monday_lows_taken
          (analyze_monday_ranges df).both_broken
          (analyze_monday_ranges df).day_high_break
          (analyze_monday_ranges df).day_low_break).day_low_probs.map
        Prod.snd).sum = 1) := by
  refine ⟨?_, ?_, ?_, ?_⟩
  · rw [counterKeys_sum_count, dayHigh_len_eq]
  · rw [counterKeys_sum_count, dayLow_len_eq]
  · intro hpos
    unfold calculate_probabilities
    simp only [List.map_map]
    have hmap : ((counterKeys (analyze_monday_ranges df).day_high_break).map
        (Prod.snd ∘ (fun d => (day_names d,
          if 0 < (analyze_monday_ranges df).monday_highs_taken then
            ((analyze_monday_ranges df).day_high_break.count d : ℚ) /
              ((analyze_monday_ranges df).monday_highs_taken : ℚ)
          else 0)))) =
        ((counterKeys (analyze_monday_ranges df).day_high_break).map
          (fun d => ((analyze_monday_ranges df).day_high_break.count d : ℚ) /
            ((analyze_monday_ranges df).monday_highs_taken : ℚ))) := by
      refine List.map_congr_left (fun d _ => ?_)
      simp [hpos]
    rw [hmap]
    exact sum_counter_probs _ _ (dayHigh_len_eq df) hpos
  · intro hpos
    unfold calculate_probabilities
    simp only [List.map_map]
    have hmap : ((counterKeys (analyze_monday_ranges df).day_low_break).map
        (Prod.snd ∘ (fun d => (day_names d,
          if 0 < (analyze_monday_ranges df).monday_lows_taken then
            ((analyze_monday_ranges df).day_low_break.count d : ℚ) /
              ((analyze_monday_ranges df).monday_lows_taken : ℚ)
          else 0)))) =
        ((counterKeys (analyze_monday_ranges df).day_low_break).map
          (fun d => ((analyze_monday_ranges df).day_low_break.count d : ℚ) /
            ((analyze_monday_ranges df).monday_lows_taken : ℚ))) := by
      refine List.map_congr_left (fun d _ => ?_)
      simp [hpos]
    rw [hmap]
    exact sum_counter_probs _ _ (dayLow_len_eq df) hpos

theorem c5_day_probs_sum_witness :
    0 < (analyze_monday_ranges exampleWeek).monday_highs_taken ∧
    0 < (analyze_monday_ranges exampleWeek).monday_lows_taken ∧
    ((calculate_probabilities (analyze_monday_ranges exampleWeek).total_mondays
        (analyze_monday_ranges exampleWeek).monday_highs_taken
        (analyze_monday_ranges exampleWeek).monday_lows_taken
        (analyze_monday_ranges exampleWeek).both_broken
        (analyze_monday_ranges exampleWeek).day_high_break
        (analyze_monday_ranges exampleWeek).day_low_break).day_high_probs.map
      Prod.snd).sum = 1 ∧
    ((calculate_probabilities (analyze_monday_ranges exampleWeek).total_mondays
        (analyze_monday_ranges exampleWeek).monday_highs_taken
        (analyze_monday_ranges exampleWeek).monday_lows_taken
        (analyze_monday_ranges exampleWeek).both_broken
        (analyze_monday_ranges exampleWeek).day_high_break
        (analyze_monday_ranges exampleWeek).day_low_break).day_low_probs.map
      Prod.snd).sum = 1 :=
  ⟨by decide, by decide,
    (c5_day_probs_sum exampleWeek).2.2.1 (by decide),
    (c5_day_probs_sum exampleWeek).2.2.2 (by decide)⟩

/-- C1: for a date-sorted input and an eligible week (one with a Monday row),
the classifier's `high_broken` flag is true iff some Tuesday-Friday row of the
week has high strictly greater than Monday's high; the row whose weekday is
recorded as the first high-break day is an earliest-dated such row; a row
whose high merely equals Monday's high is not a break.  Symmetrically for the
low side. -/
theorem c1_classifier (df : List Candle)
    (hsort : df.Pairwise (fun a b => a.date ≤ b.date))
    (k : ℕ × ℕ) (monday : Candle) (ms : List Candle)
    (hmon : mondayRows (weekGroup df k) = monday :: ms) :
    (((highBreakRows (weekGroup df k) monday.high).isEmpty = false) ↔
      ∃ c ∈ restOfWeek (weekGroup df k), monday.high < c.high) ∧
    (∀ c, (highBreakRows (weekGroup df k) monday.high).head? = some c →
      c ∈ restOfWeek (weekGroup df k) ∧ monday.high < c.high ∧
      ∀ c' ∈ restOfWeek (weekGroup df k), monday.high < c'.high → c.date ≤ c'.date) ∧
    (∀ c ∈ restOfWeek (weekGroup df k), c.high = monday.high →
      c ∉ highBreakRows (weekGroup df k) monday.high) ∧
    (((lowBreakRows (weekGroup df k) monday.low).isEmpty = false) ↔
      ∃ c ∈ restOfWeek (weekGroup df k), c.low < monday.low) ∧
    (∀ c, (lowBreakRows (weekGroup df k) monday.low).head? = some c →
      c ∈ restOfWeek (weekGroup df k) ∧ c.low < monday.low ∧
      ∀ c' ∈ restOfWeek (weekGroup df k), c'.low < monday.low → c.date ≤ c'.date) ∧
    (∀ c ∈ restOfWeek (weekGroup df k), c.low = monday.low →
      c ∉ lowBreakRows (weekGroup df k) monday.low) := by
  have hg : (weekGroup df k).Pairwise (fun a b => a.date ≤ b.date) :=
    List.Pairwise.sublist (List.filter_sublist df) hsort
  have hrest : (restOfWeek (weekGroup df k)).Pairwise (fun a b => a.date ≤ b.date) :=
    List.Pairwise.sublist (List.filter_sublist _) hg
  have hmemHigh : ∀ c, c ∈ highBreakRows (weekGroup df k) monday.high ↔
      c ∈ restOfWeek (weekGroup df k) ∧ monday.high < c.high := by
    intro c
    unfold highBreakRows
    simp [List.mem_filter]
  have hmemLow : ∀ c, c ∈ lowBreakRows (weekGroup df k) monday.low ↔
      c ∈ restOfWeek (weekGroup df k) ∧ c.low < monday.low := by
    intro c
    unfold lowBreakRows
    simp [List.mem_filter]
  have hbrHigh : (highBreakRows (weekGroup df k) monday.high).Pairwise
      (fun a b => a.date ≤ b.date) :=
    List.Pairwise.sublist (List.filter_sublist _) hrest
  have hbrLow : (lowBreakRows (weekGroup df k) monday.low).Pairwise
      (fun a b => a.date ≤ b.date) :=
    List.Pairwise.sublist (List.filter_sublist _) hrest
  refine ⟨?_, ?_, ?_, ?_, ?_, ?_⟩
  · constructor
    · intro h
      cases hrows : highBreakRows (weekGroup df k) monday.high with
      | nil => rw [hrows] at h; simp at h
      | cons c t =>
        have hc : c ∈ highBreakRows (weekGroup df k) monday.high := by
          rw [hrows]; exact List.mem_cons_self _ _
        obtain ⟨h1, h2⟩ := (hmemHigh c).mp hc
        exact ⟨c, h1, h2⟩
    · rintro ⟨c, hc, hlt⟩
      have : c ∈ highBreakRows (weekGroup df k) monday.high :=
        (hmemHigh c).mpr ⟨hc, hlt⟩
      cases hrows : highBreakRows (weekGroup df k) monday.high with
      | nil => rw [hrows] at this; simp at this
      | cons c0 t => simp
  · intro c hc
    cases hrows : highBreakRows (weekGroup df k) monday.high with
    | nil => rw [hrows] at hc; simp at hc
    | cons c0 t =>
      rw [hrows] at hc
      simp only [List.head?_cons, Option.some.injEq] at hc
      subst hc
      have hc0 : c0 ∈ highBreakRows (weekGroup df k) monday.high := by
        rw [hrows]; exact List.mem_cons_self _ _
      obtain ⟨h1, h2⟩ := (hmemHigh c0).mp hc0
      refine ⟨h1, h2, ?_⟩
      intro c' hc' hlt'
      have hcmem : c' ∈ highBreakRows (weekGroup df k) monday.high :=
        (hmemHigh c').mpr ⟨hc', hlt'⟩
      rw [hrows] at hcmem
      rw [hrows] at hbrHigh
      rcases List.mem_cons.mp hcmem with h | h
      · subst h; exact le_refl _
      · exact (List.pairwise_cons.mp hbrHigh).1 c' h
  · intro c _ heq hmem
    obtain ⟨_, hlt⟩ := (hmemHigh c).mp hmem
    rw [heq] at hlt
    exact lt_irrefl _ hlt
  · constructor
    · intro h
      cases hrows : lowBreakRows (weekGroup df k) monday.low with
      | nil => rw [hrows] at h; simp at h
      | cons c t =>
        have hc : c ∈ lowBreakRows (weekGroup df k) monday.low := by
          rw [hrows]; exact List.mem_cons_self _ _
        obtain ⟨h1, h2⟩ := (hmemLow c).mp hc
        exact ⟨c, h1, h2⟩
    · rintro ⟨c, hc, hlt⟩
      have : c ∈ lowBreakRows (weekGroup df k) monday.low :=
        (hmemLow c).mpr ⟨hc, hlt⟩
      cases hrows : lowBreakRows (weekGroup df k) monday.low with
      | nil => rw [hrows] at this; simp at this
      | cons c0 t => simp
  · intro c hc
    cases hrows : lowBreakRows (weekGroup df k) monday.low with
    | nil => rw [hrows] at hc; simp at hc
    | cons c0 t =>
      rw [hrows] at hc
      simp only [List.head?_cons, Option.some.injEq] at hc
      subst hc
      have hc0 : c0 ∈ lowBreakRows (weekGroup df k) monday.low := by
        rw [hrows]; exact List.mem_cons_self _ _
      obtain ⟨h1, h2⟩ := (hmemLow c0).mp hc0
      refine ⟨h1, h2, ?_⟩
      intro c' hc' hlt'
      have hcmem : c' ∈ lowBreakRows (weekGroup df k) monday.low :=
        (hmemLow c').mpr ⟨hc', hlt'⟩
      rw [hrows] at hcmem
      rw [hrows] at hbrLow
      rcases List.mem_cons.mp hcmem with h | h
      · subst h; exact le_refl _
      · exact (List.pairwise_cons.mp hbrLow).1 c' h
  · intro c _ heq hmem
    obtain ⟨_, hlt⟩ := (hmemLow c).mp hmem
    rw [heq] at hlt
    exact lt_irrefl _ hlt

theorem c1_classifier_witness :
    List.Pairwise (fun a b => a.date ≤ b.date) exampleWeek ∧
    mondayRows (weekGroup exampleWeek (10, 2024)) = [mkCandle 0 0 10 2024 10 5] ∧
    (((highBreakRows (weekGroup exampleWeek (10, 2024))
        (mkCandle 0 0 10 2024 10 5).high).isEmpty = false) ↔
      ∃ c ∈ restOfWeek (weekGroup exampleWeek (10, 2024)),
        (mkCandle 0 0 10 2024 10 5).high < c.high) :=
  ⟨by decide, by decide,
    (c1_classifier exampleWeek (by decide) (10, 2024)
      (mkCandle 0 0 10 2024 10 5) [] (by decide)).1⟩

theorem restOfWeek_day_bounds (g : List Candle) (c : Candle)
    (hc : c ∈ restOfWeek g) : 1 ≤ c.dayOfWeek ∧ c.dayOfWeek ≤ 4 := by
  unfold restOfWeek at hc
  have := (List.mem_filter.mp hc).2
  simp at this
  omega

theorem firstHighDay_bounds (df : List Candle) (k : ℕ × ℕ) (d : ℕ)
    (h : firstHighDay df k = some d) : 1 ≤ d ∧ d ≤ 4 := by
  unfold firstHighDay at h
  cases hm : mondayRows (weekGroup df k) with
  | nil => rw [hm] at h; simp at h
  | cons monday tl =>
    rw [hm] at h
    rw [Option.map_eq_some'] at h
    obtain ⟨c, hc, hd⟩ := h
    cases hrows : highBreakRows (weekGroup df k) monday.high with
    | nil => rw [hrows] at hc; simp at hc
    | cons c0 t =>
      rw [hrows] at hc
      simp only [List.head?_cons, Option.some.injEq] at hc
      subst hc
      have hmem : c0 ∈ highBreakRows (weekGroup df k) monday.high := by
        rw [hrows]; exact List.mem_cons_self _ _
      have hrest : c0 ∈ restOfWeek (weekGroup df k) :=
        List.mem_of_mem_filter hmem
      subst hd
      exact restOfWeek_day_bounds _ _ hrest

theorem firstLowDay_bounds (df : List Candle) (k : ℕ × ℕ) (d : ℕ)
    (h : firstLowDay df k = some d) : 1 ≤ d ∧ d ≤ 4 := by
  unfold firstLowDay at h
  cases hm : mondayRows (weekGroup df k) with
  | nil => rw [hm] at h; simp at h
  | cons monday tl =>
    rw [hm] at h
    rw [Option.map_eq_some'] at h
    obtain ⟨c, hc, hd⟩ := h
    cases hrows : lowBreakRows (weekGroup df k) monday.low with
    | nil => rw [hrows] at hc; simp at hc
    | cons c0 t =>
      rw [hrows] at hc
      simp only [List.head?_cons, Option.some.injEq] at hc
      subst hc
      have hmem : c0 ∈ lowBreakRows (weekGroup df k) monday.low := by
        rw [hrows]; exact List.mem_cons_self _ _
      have hrest : c0 ∈ restOfWeek (weekGroup df k) :=
        List.mem_of_mem_filter hmem
      subst hd
      exact restOfWeek_day_bounds _ _ hrest

theorem day_names_isSome_of_bounds (d : ℕ) (h1 : 1 ≤ d) (h4 : d ≤ 4) :
    (day_names d).isSome = true := by
  have : d = 1 ∨ d = 2 ∨ d = 3 ∨ d = 4 := by omega
  rcases this with rfl | rfl | rfl | rfl <;> simp [day_names]

/-- C10: every key recorded in the `day_high_break` / `day_low_break`
counters lies in {1, 2, 3, 4} (Tuesday through Friday), because break
candidates are filtered to those weekdays before tallying; hence the
`day_names[day]` dictionary lookup in `calculate_probabilities` never raises
a missing-key error. -/
theorem c10_day_keys_safe (df : List Candle) (d : ℕ) :
    (d ∈ (analyze_monday_ranges df).day_high_break →
      (1 ≤ d ∧ d ≤ 4) ∧ (day_names d).isSome = true) ∧
    (d ∈ (analyze_monday_ranges df).day_low_break →
      (1 ≤ d ∧ d ≤ 4) ∧ (day_names d).isSome = true) := by
  constructor
  · intro hd
    rw [ranges_dayHigh_eq] at hd
    obtain ⟨k, _, hk⟩ := List.mem_filterMap.mp hd
    have hb := firstHighDay_bounds df k d hk
    exact ⟨hb, day_names_isSome_of_bounds d hb.1 hb.2⟩
  · intro hd
    rw [ranges_dayLow_eq] at hd
    obtain ⟨k, _, hk⟩ := List.mem_filterMap.mp hd
    have hb := firstLowDay_bounds df k d hk
    exact ⟨hb, day_names_isSome_of_bounds d hb.1 hb.2⟩

theorem c10_day_keys_safe_witness :
    (1 : ℕ) ∈ (analyze_monday_ranges exampleWeek).day_high_break ∧
    ((1 ≤ 1 ∧ 1 ≤ 4) ∧ (day_names 1).isSome = true) :=
  ⟨by decide, (c10_day_keys_safe exampleWeek 1).1 (by decide)⟩

/-- A dataset with candle rows but no Monday row in any week, so that
`total_mondays = 0`. -/
def exampleNoMonday : List Candle :=
  [mkCandle 1 1 10 2024 12 6, mkCandle 2 2 10 2024 9 3]

/-- C6 (code bug witness): on an input with no eligible week
(`total_mondays = 0`) the guarded probabilities of `calculate_probabilities`
and `print_results` all report 0, but the percentage cells of
`create_excel_report` in monday_partial_breaks.py divide by `total_mondays`
without a zero guard, so the run fails with a `ZeroDivisionError` (modelled
as `none`) instead of reporting 0. -/
theorem c6_zero_mondays_divzero :
    (analyze_break_categories exampleNoMonday).total_mondays = 0 ∧
    (analyze_monday_ranges exampleNoMonday).total_mondays = 0 ∧
    (calculate_probabilities (analyze_monday_ranges exampleNoMonday).total_mondays
      (analyze_monday_ranges exampleNoMonday).monday_highs_taken
      (analyze_monday_ranges exampleNoMonday).monday_lows_taken
      (analyze_monday_ranges exampleNoMonday).both_broken
      (analyze_monday_ranges exampleNoMonday).day_high_break
      (analyze_monday_ranges exampleNoMonday).day_low_break).high_break_prob = 0 ∧
    (calculate_probabilities (analyze_monday_ranges exampleNoMonday).total_mondays
      (analyze_monday_ranges exampleNoMonday).monday_highs_taken
      (analyze_monday_ranges exampleNoMonday).monday_lows_taken
      (analyze_monday_ranges exampleNoMonday).both_broken
      (analyze_monday_ranges exampleNoMonday).day_high_break
      (analyze_monday_ranges exampleNoMonday).day_low_break).low_break_prob = 0 ∧
    (calculate_probabilities (analyze_monday_ranges exampleNoMonday).total_mondays
      (analyze_monday_ranges exampleNoMonday).monday_highs_taken
      (analyze_monday_ranges exampleNoMonday).monday_lows_taken
      (analyze_monday_ranges exampleNoMonday).both_broken
      (analyze_monday_ranges exampleNoMonday).day_high_break
      (analyze_monday_ranges exampleNoMonday).day_low_break).day_high_probs = [] ∧
    (calculate_probabilities (analyze_monday_ranges exampleNoMonday).total_mondays
      (analyze_monday_ranges exampleNoMonday).monday_highs_taken
      (analyze_monday_ranges exampleNoMonday).monday_lows_taken
      (analyze_monday_ranges exampleNoMonday).both_broken
      (analyze_monday_ranges exampleNoMonday).day_high_break
      (analyze_monday_ranges exampleNoMonday).day_low_break).day_low_probs = [] ∧
    either_break_prob (analyze_monday_ranges exampleNoMonday) = 0 ∧
    incomplete_breaks_pct (analyze_break_categories exampleNoMonday) = none ∧
    both_breaks_pct (analyze_break_categories exampleNoMonday) = none := by
  have hdh : (analyze_monday_ranges exampleNoMonday).day_high_break = [] := by decide
  have hdl : (analyze_monday_ranges exampleNoMonday).day_low_break = [] := by decide
  refine ⟨by decide, by decide, by decide, by decide, ?_, ?_, by decide, by decide,
    by decide⟩
  · rw [hdh]
    unfold calculate_probabilities
    rw [counterKeys]
    simp
  · rw [hdl]
    unfold calculate_probabilities
    rw [counterKeys]
    simp

theorem sortedKeys_sorted (df : List Candle) : (sortedKeys df).Pairwise keyLE :=
  List.sorted_insertionSort keyLE (df.map candleKey).dedup

theorem weekInfoOf_key (df : List Candle) (k : ℕ × ℕ) (wi : WeekInfo)
    (h : weekInfoOf df k = some wi) : (wi.week, wi.year) = k := by
  unfold weekInfoOf at h
  cases hm : mondayRows (weekGroup df k) with
  | nil => rw [hm] at h; simp at h
  | cons monday tl =>
    rw [hm] at h
    simp only [Option.some.injEq] at h
    rw [← h]

theorem onlyHighInfo_key (df : List Candle) (k : ℕ × ℕ) (wi : WeekInfo)
    (h : onlyHighInfo df k = some wi) : (wi.week, wi.year) = k := by
  unfold onlyHighInfo at h
  split at h
  · exact weekInfoOf_key df k wi h
  · simp at h

theorem onlyLowInfo_key (df : List Candle) (k : ℕ × ℕ) (wi : WeekInfo)
    (h : onlyLowInfo df k = some wi) : (wi.week, wi.year) = k := by
  unfold onlyLowInfo at h
  split at h
  · exact weekInfoOf_key df k wi h
  · simp at h

theorem neitherInfo_key (df : List Candle) (k : ℕ × ℕ) (wi : WeekInfo)
    (h : neitherInfo df k = some wi) : (wi.week, wi.year) = k := by
  unfold neitherInfo at h
  split at h
  · exact weekInfoOf_key df k wi h
  · simp at h

theorem bothInfo_key (df : List Candle) (k : ℕ × ℕ) (wi : WeekInfo)
    (h : bothInfo df k = some wi) : (wi.week, wi.year) = k := by
  unfold bothInfo at h
  split at h
  · exact weekInfoOf_key df k wi h
  · simp at h

theorem pairwise_keys_filterMap (f : (ℕ × ℕ) → Option WeekInfo)
    (hf : ∀ k wi, f k = some wi → (wi.week, wi.year) = k)
    (ks : List (ℕ × ℕ)) (hks : ks.Pairwise keyLE) :
    ((ks.filterMap f).map (fun w => (w.week, w.year))).Pairwise keyLE := by
  induction ks with
  | nil => simp
  | cons k t ih =>
    obtain ⟨hk, ht⟩ := List.pairwise_cons.mp hks
    cases hfk : f k with
    | none =>
      rw [List.filterMap_cons]
      simp only [hfk]
      exact ih ht
    | some wi =>
      rw [List.filterMap_cons]
      simp only [hfk, List.map_cons]
      rw [List.pairwise_cons]
      refine ⟨?_, ih ht⟩
      intro x hx
      obtain ⟨w', hw', hxe⟩ := List.mem_map.mp hx
      obtain ⟨k', hk', hfk'⟩ := List.mem_filterMap.mp hw'
      rw [← hxe, hf k' w' hfk', hf k wi hfk]
      exact hk k' hk'

/-- C8 (amended): the week groups are iterated - and the categorized week
lists are therefore produced - in ascending lexicographic order of
`(isoWeek, isoYear)`, the order pandas `groupby(['Week', 'Year'])` uses;
within a single ISO year this is chronological, but it is not ascending in
`(isoYear, isoWeek)` across year boundaries. -/
theorem c8_iteration_order (df : List Candle) :
    (sortedKeys df).Pairwise keyLE ∧
    (weekGroups df).Pairwise (fun a b => keyLE a.1 b.1) ∧
    ((analyze_break_categories df).only_high_broken.map
      (fun w => (w.week, w.year))).Pairwise keyLE ∧
    ((analyze_break_categories df).only_low_broken.map
      (fun w => (w.week, w.year))).Pairwise keyLE ∧
    ((analyze_break_categories df).neither_broken.map
      (fun w => (w.week, w.year))).Pairwise keyLE ∧
    ((analyze_break_categories df).both_broken.map
      (fun w => (w.week, w.year))).Pairwise keyLE := by
  refine ⟨sortedKeys_sorted df, ?_, ?_, ?_, ?_, ?_⟩
  · unfold weekGroups
    rw [List.pairwise_map]
    exact sortedKeys_sorted df
  · rw [breaks_onlyHigh_eq]
    exact pairwise_keys_filterMap _ (onlyHighInfo_key df) _ (sortedKeys_sorted df)
  · rw [breaks_onlyLow_eq]
    exact pairwise_keys_filterMap _ (onlyLowInfo_key df) _ (sortedKeys_sorted df)
  · rw [breaks_neither_eq]
    exact pairwise_keys_filterMap _ (neitherInfo_key df) _ (sortedKeys_sorted df)
  · rw [breaks_both_eq]
    exact pairwise_keys_filterMap _ (bothInfo_key df) _ (sortedKeys_sorted df)

/-- Two eligible weeks across an ISO-year boundary: week 52 of 2024 (earlier
date) and week 1 of 2025 (later date). -/
def exC8 : List Candle :=
  [mkCandle 100 0 52 2024 10 5, mkCandle 200 0 1 2025 10 5]

/-- C8 (counterexample): on `exC8` the categorized output is ordered week 1 of
2025 before week 52 of 2024 - the iteration is neither ascending in
`(isoYear, isoWeek)` nor chronological across the year boundary. -/
theorem c8_counterexample :
    ((analyze_break_categories exC8).neither_broken.map
      (fun w => (w.year, w.week))) = [(2025, 1), (2024, 52)] ∧
    ¬ ((analyze_break_categories exC8).neither_broken.map
        (fun w => (w.year, w.week))).Pairwise
        (fun a b : ℕ × ℕ => a.1 < b.1 ∨ (a.1 = b.1 ∧ a.2 ≤ b.2)) ∧
    ¬ ((analyze_break_categories exC8).neither_broken.map
        (fun w => w.date)).Pairwise (fun a b : ℕ => a ≤ b) := by
  decide

/-- The frame restricted to rows whose week has a Monday row: dropping every
week group that contains no Monday record. -/
def mondayFiltered (df : List Candle) : List Candle :=
  df.filter (fun c => weekHasMonday df (candleKey c))

theorem no_monday_rows (df : List Candle) (k : ℕ × ℕ)
    (h : weekHasMonday df k = false) : mondayRows (weekGroup df k) = [] := by
  unfold weekHasMonday at h
  cases hm : mondayRows (weekGroup df k) with
  | nil => rfl
  | cons c t => rw [hm] at h; simp at h

theorem sortedKeys_mondayFiltered (df : List Candle) :
    sortedKeys (mondayFiltered df) =
      (sortedKeys df).filter (fun k => weekHasMonday df k) := by
  unfold sortedKeys mondayFiltered
  have hmap : (df.filter (fun c => weekHasMonday df (candleKey c))).map candleKey =
      (df.map candleKey).filter (fun k => weekHasMonday df k) := by
    rw [List.filter_map]
    rfl
  rw [hmap]
  have p1 : (List.insertionSort keyLE
      ((df.map candleKey).filter (fun k => weekHasMonday df k)).dedup).Perm
      ((df.map candleKey).filter (fun k => weekHasMonday df k)).dedup :=
    List.perm_insertionSort keyLE _
  have p2 : ((df.map candleKey).filter (fun k => weekHasMonday df k)).dedup.Perm
      ((df.map candleKey).dedup.filter (fun k => weekHasMonday df k)) := by
    rw [List.perm_ext_iff_of_nodup (List.nodup_dedup _)
      (List.Nodup.filter _ (List.nodup_dedup _))]
    intro a
    simp [List.mem_filter, List.mem_dedup]
  have p3 : ((df.map candleKey).dedup.filter (fun k => weekHasMonday df k)).Perm
      ((List.insertionSort keyLE (df.map candleKey).dedup).filter
        (fun k => weekHasMonday df k)) :=
    List.Perm.filter _ (List.perm_insertionSort keyLE _).symm
  have hs1 : List.Sorted keyLE (List.insertionSort keyLE
      ((df.map candleKey).filter (fun k => weekHasMonday df k)).dedup) :=
    List.sorted_insertionSort keyLE _
  have hs2 : List.Sorted keyLE ((List.insertionSort keyLE
      (df.map candleKey).dedup).filter (fun k => weekHasMonday df k)) :=
    List.Pairwise.sublist (List.filter_sublist _)
      (List.sorted_insertionSort keyLE _)
  exact List.eq_of_perm_of_sorted ((p1.trans p2).trans p3) hs1 hs2

theorem weekGroup_mondayFiltered (df : List Candle) (k : ℕ × ℕ)
    (h : weekHasMonday df k = true) :
    weekGroup (mondayFiltered df) k = weekGroup df k := by
  unfold weekGroup mondayFiltered
  rw [List.filter_filter]
  apply List.filter_congr
  intro c _
  by_cases hck : candleKey c = k
  · simp [hck, h]
  · simp [hck]

theorem foldl_filter_skip {α β : Type} (f g : β → α → β) (p : α → Bool)
    (l : List α)
    (h1 : ∀ a ∈ l, p a = true → ∀ acc, f acc a = g acc a)
    (h2 : ∀ a ∈ l, p a = false → ∀ acc, g acc a = acc) :
    ∀ acc, (l.filter p).foldl f acc = l.foldl g acc := by
  induction l with
  | nil => intro acc; simp
  | cons a t ih =>
    intro acc
    have ih' := ih (fun x hx => h1 x (List.mem_cons_of_mem _ hx))
      (fun x hx => h2 x (List.mem_cons_of_mem _ hx))
    cases hp : p a with
    | true =>
      rw [List.filter_cons_of_pos hp, List.foldl_cons, List.foldl_cons,
        h1 a (List.mem_cons_self _ _) hp]
      exact ih' _
    | false =>
      rw [List.filter_cons_of_neg (by simp [hp]), List.foldl_cons,
        h2 a (List.mem_cons_self _ _) hp]
      exact ih' _

/-- C9: a week group with no Monday record is excluded entirely and without
error: dropping all such weeks from the input changes nothing in either
analyzer's output - no total, count, tally or categorized list entry comes
from them, and all other weeks are processed unchanged. -/
theorem c9_no_monday_excluded (df : List Candle) :
    analyze_monday_ranges (mondayFiltered df) = analyze_monday_ranges df ∧
    analyze_break_categories (mondayFiltered df) = analyze_break_categories df := by
  constructor
  · unfold analyze_monday_ranges weekGroups
    rw [List.foldl_map, List.foldl_map, sortedKeys_mondayFiltered]
    apply foldl_filter_skip
    · intro k _ hk acc
      rw [weekGroup_mondayFiltered df k hk]
    · intro k _ hk acc
      have hm := no_monday_rows df k hk
      simp [stepRanges, hm]
  · unfold analyze_break_categories weekGroups
    rw [List.foldl_map, List.foldl_map, sortedKeys_mondayFiltered]
    apply foldl_filter_skip
    · intro k _ hk acc
      rw [weekGroup_mondayFiltered df k hk]
    · intro k _ hk acc
      have hm := no_monday_rows df k hk
      simp [stepBreaks, hm]

theorem perm_eq_of_length_le_one {α : Type} {l1 l2 : List α} (h : l1.Perm l2)
    (hl : l1.length ≤ 1) : l1 = l2 := by
  cases l1 with
  | nil => exact (List.Perm.eq_nil h.symm).symm
  | cons a t =>
    cases t with
    | nil => exact (List.perm_singleton.mp h.symm).symm
    | cons b t2 => simp at hl

theorem perm_isEmpty_eq {α : Type} {l1 l2 : List α} (h : l1.Perm l2) :
    l1.isEmpty = l2.isEmpty := by
  have := h.length_eq
  cases l1 <;> cases l2 <;> simp_all

theorem sortedKeys_perm_eq (df df2 : List Candle) (hperm : df.Perm df2) :
    sortedKeys df = sortedKeys df2 := by
  unfold sortedKeys
  have p1 : (List.insertionSort keyLE (df.map candleKey).dedup).Perm
      (List.insertionSort keyLE (df2.map candleKey).dedup) :=
    ((List.perm_insertionSort keyLE _).trans
      ((hperm.map candleKey).dedup)).trans
      (List.perm_insertionSort keyLE _).symm
  exact List.eq_of_perm_of_sorted p1
    (List.sorted_insertionSort keyLE _) (List.sorted_insertionSort keyLE _)

theorem mondayRows_perm_eq (df df2 : List Candle) (hperm : df.Perm df2)
    (k : ℕ × ℕ) (hmk : (mondayRows (weekGroup df k)).length ≤ 1) :
    mondayRows (weekGroup df k) = mondayRows (weekGroup df2 k) :=
  perm_eq_of_length_le_one ((hperm.filter _).filter _) hmk

theorem weekHasMonday_perm_eq (df df2 : List Candle) (hperm : df.Perm df2)
    (k : ℕ × ℕ) (hmk : (mondayRows (weekGroup df k)).length ≤ 1) :
    weekHasMonday df k = weekHasMonday df2 k := by
  unfold weekHasMonday
  rw [mondayRows_perm_eq df df2 hperm k hmk]

theorem weekHighBroken_perm_eq (df df2 : List Candle) (hperm : df.Perm df2)
    (k : ℕ × ℕ) (hmk : (mondayRows (weekGroup df k)).length ≤ 1) :
    weekHighBroken df k = weekHighBroken df2 k := by
  unfold weekHighBroken
  rw [← mondayRows_perm_eq df df2 hperm k hmk]
  cases hm : mondayRows (weekGroup df k) with
  | nil => rfl
  | cons monday tl =>
    have hbp : (highBreakRows (weekGroup df k) monday.high).Perm
        (highBreakRows (weekGroup df2 k) monday.high) :=
      ((hperm.filter _).filter _).filter _
    show (!(highBreakRows (weekGroup df k) monday.high).isEmpty) =
      !(highBreakRows (weekGroup df2 k) monday.high).isEmpty
    rw [perm_isEmpty_eq hbp]

theorem weekLowBroken_perm_eq (df df2 : List Candle) (hperm : df.Perm df2)
    (k : ℕ × ℕ) (hmk : (mondayRows (weekGroup df k)).length ≤ 1) :
    weekLowBroken df k = weekLowBroken df2 k := by
  unfold weekLowBroken
  rw [← mondayRows_perm_eq df df2 hperm k hmk]
  cases hm : mondayRows (weekGroup df k) with
  | nil => rfl
  | cons monday tl =>
    have hbp : (lowBreakRows (weekGroup df k) monday.low).Perm
        (lowBreakRows (weekGroup df2 k) monday.low) :=
      ((hperm.filter _).filter _).filter _
    show (!(lowBreakRows (weekGroup df k) monday.low).isEmpty) =
      !(lowBreakRows (weekGroup df2 k) monday.low).isEmpty
    rw [perm_isEmpty_eq hbp]

/-- C7 (amended): permuting the input candle rows (in particular permuting the
rows within a week, preserving every record) leaves `total_mondays`, the three
break counts and the four category-list lengths unchanged, provided each week
has at most one Monday row; the per-day first-break tallies and the recorded
first-break-day fields depend on the within-week row order and may change. -/
theorem c7_perm_counts_invariant (df df2 : List Candle) (hperm : df.Perm df2)
    (hmono : ∀ k ∈ sortedKeys df, (mondayRows (weekGroup df k)).length ≤ 1) :
    (analyze_monday_ranges df).total_mondays =
      (analyze_monday_ranges df2).total_mondays ∧
    (analyze_monday_ranges df).monday_highs_taken =
      (analyze_monday_ranges df2).monday_highs_taken ∧
    (analyze_monday_ranges df).monday_lows_taken =
      (analyze_monday_ranges df2).monday_lows_taken ∧
    (analyze_monday_ranges df).both_broken =
      (analyze_monday_ranges df2).both_broken ∧
    (analyze_break_categories df).total_mondays =
      (analyze_break_categories df2).total_mondays ∧
    (analyze_break_categories df).only_high_broken.length =
      (analyze_break_categories df2).only_high_broken.length ∧
    (analyze_break_categories df).only_low_broken.length =
      (analyze_break_categories df2).only_low_broken.length ∧
    (analyze_break_categories df).neither_broken.length =
      (analyze_break_categories df2).neither_broken.length ∧
    (analyze_break_categories df).both_broken.length =
      (analyze_break_categories df2).both_broken.length := by
  have hkeys := sortedKeys_perm_eq df df2 hperm
  have hM := fun k hk => weekHasMonday_perm_eq df df2 hperm k (hmono k hk)
  have hH := fun k hk => weekHighBroken_perm_eq df df2 hperm k (hmono k hk)
  have hL := fun k hk => weekLowBroken_perm_eq df df2 hperm k (hmono k hk)
  refine ⟨?_, ?_, ?_, ?_, ?_, ?_, ?_, ?_, ?_⟩
  · rw [ranges_total_eq, ranges_total_eq, ← hkeys]
    exact List.countP_congr (fun k hk => by rw [hM k hk])
  · rw [ranges_highs_eq, ranges_highs_eq, ← hkeys]
    exact List.countP_congr (fun k hk => by rw [hH k hk])
  · rw [ranges_lows_eq, ranges_lows_eq, ← hkeys]
    exact List.countP_congr (fun k hk => by rw [hL k hk])
  · rw [ranges_both_eq, ranges_both_eq, ← hkeys]
    exact List.countP_congr (fun k hk => by rw [hH k hk, hL k hk])
  · rw [breaks_total_eq, breaks_total_eq, ← hkeys]
    exact List.countP_congr (fun k hk => by rw [hM k hk])
  · rw [onlyHigh_len_eq, onlyHigh_len_eq, ← hkeys]
    exact List.countP_congr (fun k hk => by rw [hH k hk, hL k hk])
  · rw [onlyLow_len_eq, onlyLow_len_eq, ← hkeys]
    exact List.countP_congr (fun k hk => by rw [hH k hk, hL k hk])
  · rw [neither_len_eq, neither_len_eq, ← hkeys]
    exact List.countP_congr (fun k hk => by rw [hM k hk, hH k hk, hL k hk])
  · rw [both_len_eq, both_len_eq, ← hkeys]
    exact List.countP_congr (fun k hk => by rw [hH k hk, hL k hk])

/-- One week whose Tuesday and Wednesday both exceed Monday's high, listed
with Wednesday before Tuesday. -/
def exC7a : List Candle :=
  [mkCandle 0 0 10 2024 10 5, mkCandle 2 2 10 2024 12 6, mkCandle 1 1 10 2024 11 6]

/-- The same week with its rows permuted into date order. -/
def exC7a2 : List Candle :=
  [mkCandle 0 0 10 2024 10 5, mkCandle 1 1 10 2024 11 6, mkCandle 2 2 10 2024 12 6]

/-- One week with two Monday rows of different highs, first Monday first. -/
def exC7b : List Candle :=
  [mkCandle 0 0 11 2024 10 5, mkCandle 3 0 11 2024 15 4, mkCandle 1 1 11 2024 12 6]

/-- The same week with the two Monday rows swapped. -/
def exC7b2 : List Candle :=
  [mkCandle 3 0 11 2024 15 4, mkCandle 0 0 11 2024 10 5, mkCandle 1 1 11 2024 12 6]

/-- C7 (counterexample): permuting the records within a week, preserving every
record's date, weekday and prices, does change returned results.  On the
single-Monday week `exC7a` the permutation changes the first-high-break day
tally from Wednesday to Tuesday; on the duplicate-Monday week `exC7b` it even
changes the high-break count. -/
theorem c7_counterexample :
    exC7a.Perm exC7a2 ∧
    (∀ c ∈ exC7a, candleKey c = (10, 2024)) ∧
    (analyze_monday_ranges exC7a).day_high_break = [2] ∧
    (analyze_monday_ranges exC7a2).day_high_break = [1] ∧
    exC7b.Perm exC7b2 ∧
    (∀ c ∈ exC7b, candleKey c = (11, 2024)) ∧
    (analyze_monday_ranges exC7b).monday_highs_taken = 1 ∧
    (analyze_monday_ranges exC7b2).monday_highs_taken = 0 := by
  decide

theorem c7_perm_counts_invariant_witness :
    exC7a.Perm exC7a2 ∧
    (∀ k ∈ sortedKeys exC7a, (mondayRows (weekGroup exC7a k)).length ≤ 1) ∧
    (analyze_monday_ranges exC7a).monday_highs_taken =
      (analyze_monday_ranges exC7a2).monday_highs_taken :=
  ⟨by decide, by decide,
    (c7_perm_counts_invariant exC7a exC7a2 (by decide) (by decide)).2.1⟩
